import Mathlib

/-!
Verification of the skill quality-scoring engine (`quality_scorer.py`).

The engine loads a skill artifact (a directory with a primary document
`SKILL.md`, an optional `references` subdirectory of markdown files, and
optional Python script files) and scores it across five categories
(structure, content, efficiency, security, style), aggregating the
category results into an overall score, percentage, grade and issue list.

This file shallowly embeds the scoring pipeline.  File contents are
modelled as `String` / `List Char`; the filesystem is abstracted into a
`SkillArtifact` record holding the loaded file contents (the loader
guarantees that `SKILL.md` exists, so the primary document is a total
field).  Python integers are `Nat`, Python floats are modelled exactly as
rationals `ℚ`.  Regular-expression searches are embedded as executable
character-list scanners whose semantics follow the concrete patterns used
by the source (`re.search`, `re.split`, `re.sub`, `re.findall` on the
specific pattern literals appearing in the code).
-/

/-- Python whitespace (`\s` on ASCII text, and the character set used by
`str.strip()` / `str.split()`). -/
def isPyWs (c : Char) : Bool :=
  c = ' ' || c = '\t' || c = '\n' || c = '\r' || c = '\x0b' || c = '\x0c'

/-- The two quote characters of the secret-literal regexes (`["\']`). -/
def isQuoteCh (c : Char) : Bool :=
  c = '"' || c = '\''

/-- A regex word character (`\w` on ASCII): alphanumeric or underscore. -/
def isWordCh (c : Char) : Bool :=
  c.isAlphanum || c = '_'

/-- `isPre p l` holds when the character list `p` is a prefix of `l`
(Python `str.startswith`). -/
def isPre : List Char → List Char → Bool
  | [], _ => true
  | _ :: _, [] => false
  | p :: ps, c :: cs => p = c && isPre ps cs

/-- Consume a literal pattern from the front of the input
(case-sensitive); returns the remainder on success. -/
def dropLit : List Char → List Char → Option (List Char)
  | [], cs => some cs
  | _ :: _, [] => none
  | p :: ps, c :: cs => if p = c then dropLit ps cs else none

/-- Consume a literal pattern from the front of the input, ASCII
case-insensitively (`re.IGNORECASE`); returns the remainder on success. -/
def dropCI : List Char → List Char → Option (List Char)
  | [], cs => some cs
  | _ :: _, [] => none
  | p :: ps, c :: cs => if p.toLower = c.toLower then dropCI ps cs else none

/-- Split the input at the first (leftmost) occurrence of the pattern
`pat`, returning the part before the occurrence and the part after it.
This is the semantics of Python `str.find` / leftmost regex literal
matching. -/
def splitFirst (pat : List Char) : List Char → Option (List Char × List Char)
  | [] => if isPre pat [] then some ([], []) else none
  | c :: cs =>
    if isPre pat (c :: cs) then some ([], (c :: cs).drop pat.length)
    else
      match splitFirst pat cs with
      | some (a, b) => some (c :: a, b)
      | none => none

/-- Substring containment (Python `in` on strings). -/
def containsSub (pat cs : List Char) : Bool :=
  (splitFirst pat cs).isSome

theorem isPre_iff_append (p : List Char) :
    ∀ l, isPre p l = true ↔ ∃ t, l = p ++ t := by
  induction p with
  | nil => intro l; simp [isPre]
  | cons x xs ih =>
    intro l
    cases l with
    | nil => simp [isPre]
    | cons c cs =>
      simp only [isPre, List.cons_append, Bool.and_eq_true, decide_eq_true_eq, ih]
      constructor
      · rintro ⟨rfl, t, rfl⟩; exact ⟨t, rfl⟩
      · rintro ⟨t, h⟩
        injection h with h1 h2
        exact ⟨h1.symm, t, h2⟩

theorem splitFirst_sound {pat : List Char} :
    ∀ {cs a b}, splitFirst pat cs = some (a, b) → cs = a ++ pat ++ b := by
  intro cs
  induction cs with
  | nil =>
    intro a b h
    unfold splitFirst at h
    by_cases hp : isPre pat [] = true
    · rw [if_pos hp] at h
      obtain ⟨t, ht⟩ := (isPre_iff_append pat []).mp hp
      obtain ⟨h1, h2⟩ := List.append_eq_nil.mp ht.symm
      injection h with h'
      cases h'
      simp [h1]
    · rw [if_neg hp] at h; cases h
  | cons c cs ih =>
    intro a b h
    unfold splitFirst at h
    by_cases hp : isPre pat (c :: cs) = true
    · rw [if_pos hp] at h
      obtain ⟨t, ht⟩ := (isPre_iff_append pat (c :: cs)).mp hp
      injection h with h'
      cases h'
      rw [ht, List.nil_append, List.drop_left]
    · rw [if_neg hp] at h
      cases hrec : splitFirst pat cs with
      | none => rw [hrec] at h; cases h
      | some ab =>
        obtain ⟨a0, b0⟩ := ab
        rw [hrec] at h
        injection h with h'
        cases h'
        have := ih hrec
        simp [this]

theorem splitFirst_complete {pat : List Char} :
    ∀ {cs} (a b : List Char), cs = a ++ pat ++ b →
      ∃ a' b', splitFirst pat cs = some (a', b') := by
  intro cs a
  induction a generalizing cs with
  | nil =>
    intro b h
    have hp : isPre pat cs = true :=
      (isPre_iff_append pat cs).mpr ⟨b, by simpa using h⟩
    cases cs with
    | nil => exact ⟨[], [], by unfold splitFirst; rw [if_pos hp]⟩
    | cons c cs' =>
      exact ⟨[], (c :: cs').drop pat.length, by unfold splitFirst; rw [if_pos hp]⟩
  | cons x xs ih =>
    intro b h
    cases cs with
    | nil => simp at h
    | cons c cs' =>
      rw [List.cons_append] at h
      injection h with h1 h2
      by_cases hp : isPre pat (c :: cs') = true
      · exact ⟨[], (c :: cs').drop pat.length, by unfold splitFirst; rw [if_pos hp]⟩
      · obtain ⟨a', b', hab⟩ := ih b h2
        exact ⟨c :: a', b', by unfold splitFirst; rw [if_neg hp, hab]⟩

theorem splitFirst_leftmost {pat : List Char} :
    ∀ {cs a b}, splitFirst pat cs = some (a, b) →
      ∀ a' b', cs = a' ++ pat ++ b' → a.length ≤ a'.length := by
  intro cs
  induction cs with
  | nil =>
    intro a b h a' b' _
    unfold splitFirst at h
    by_cases hp : isPre pat [] = true
    · rw [if_pos hp] at h
      injection h with h'
      cases h'
      simp
    · rw [if_neg hp] at h; cases h
  | cons c cs ih =>
    intro a b h a' b' hsplit
    unfold splitFirst at h
    by_cases hp : isPre pat (c :: cs) = true
    · rw [if_pos hp] at h
      injection h with h'
      cases h'
      simp
    · rw [if_neg hp] at h
      cases hrec : splitFirst pat cs with
      | none => rw [hrec] at h; cases h
      | some ab =>
        obtain ⟨a0, b0⟩ := ab
        rw [hrec] at h
        injection h with h'
        cases h'
        cases a' with
        | nil =>
          exfalso
          apply hp
          exact (isPre_iff_append pat (c :: cs)).mpr ⟨b', by simpa using hsplit⟩
        | cons x xs =>
          rw [List.cons_append] at hsplit
          injection hsplit with h1 h2
          have := ih hrec xs b' h2
          simpa using Nat.succ_le_succ this

theorem containsSub_iff (pat cs : List Char) :
    containsSub pat cs = true ↔ ∃ a b, cs = a ++ pat ++ b := by
  unfold containsSub
  constructor
  · intro h
    cases hs : splitFirst pat cs with
    | none => rw [hs] at h; simp at h
    | some ab => exact ⟨ab.1, ab.2, splitFirst_sound (by rw [hs])⟩
  · rintro ⟨a, b, rfl⟩
    obtain ⟨a', b', h⟩ := splitFirst_complete a b rfl
    rw [h]
    rfl

/-! ### Regex-style scanners

`re.search(pattern, content)` succeeds when the pattern matches at some
position of the content.  `searchFrom p prev cs` scans every suffix of
`cs`, passing the character immediately preceding the suffix (needed for
the `\b` word-boundary assertions of the dangerous-pattern regexes). -/

/-- Try the position matcher `p` at every suffix of the input; `prev` is
the character just before the current position (`none` at the start of
the content). -/
def searchFrom (p : Option Char → List Char → Bool) : Option Char → List Char → Bool
  | prev, [] => p prev []
  | prev, c :: cs => p prev (c :: cs) || searchFrom p (some c) cs

/-- `re.search`: try the position matcher at every position of the
content, beginning at the start. -/
def reSearch (p : Option Char → List Char → Bool) (cs : List Char) : Bool :=
  searchFrom p none cs

/-- Skip Python regex whitespace (`\s*`). -/
def dropWs (cs : List Char) : List Char :=
  cs.dropWhile isPyWs

/-- Match `["\'][^"\']+["\']` against a prefix of the input: an opening
quote, at least one non-quote character, and a closing quote. -/
def quotedLit : List Char → Bool
  | [] => false
  | c :: cs =>
    isQuoteCh c &&
      match cs with
      | [] => false
      | d :: ds => !isQuoteCh d && ds.any isQuoteCh

/-- Match `\s*=\s*["\'][^"\']+["\']` against a prefix of the input (the
common tail of the four assignment-style secret regexes). -/
def assignQuoted (cs : List Char) : Bool :=
  match dropWs cs with
  | c :: r => c = '=' && quotedLit (dropWs r)
  | [] => false

/-- Position matcher for `api[_-]?key\s*=\s*["\'][^"\']+["\']`
(case-insensitive). -/
def apiKeyAt (cs : List Char) : Bool :=
  match dropCI "api".data cs with
  | none => false
  | some r =>
    (match r with
     | c :: r' =>
       if c = '_' || c = '-' then
         (match dropCI "key".data r' with
          | some r2 => assignQuoted r2
          | none => false)
       else
         (match dropCI "key".data r with
          | some r2 => assignQuoted r2
          | none => false)
     | [] => false)

/-- Position matcher for `password\s*=\s*["\'][^"\']+["\']`
(case-insensitive). -/
def passwordAt (cs : List Char) : Bool :=
  match dropCI "password".data cs with
  | some r => assignQuoted r
  | none => false

/-- Position matcher for `secret\s*=\s*["\'][^"\']+["\']`
(case-insensitive). -/
def secretAt (cs : List Char) : Bool :=
  match dropCI "secret".data cs with
  | some r => assignQuoted r
  | none => false

/-- Position matcher for `token\s*=\s*["\'][^"\']+["\']`
(case-insensitive). -/
def tokenAt (cs : List Char) : Bool :=
  match dropCI "token".data cs with
  | some r => assignQuoted r
  | none => false

/-- Characters of the bearer-token class `[A-Za-z0-9\-._~+/]`. -/
def isBearerCh (c : Char) : Bool :=
  c.isAlphanum && c.toNat < 128 || c = '-' || c = '.' || c = '_' || c = '~' || c = '+' || c = '/'

/-- Position matcher for `bearer\s+[A-Za-z0-9\-._~+/]+=*`
(case-insensitive; the trailing `=*` is optional, so it imposes no
requirement on a search). -/
def bearerAt (cs : List Char) : Bool :=
  match dropCI "bearer".data cs with
  | some r =>
    (match r with
     | d :: _ =>
       isPyWs d &&
         (match dropWs r with
          | e :: _ => isBearerCh e
          | [] => false)
     | [] => false)
  | none => false

/-- `re.search` for each of the five hardcoded-secret patterns. -/
def searchApiKey (cs : List Char) : Bool := reSearch (fun _ s => apiKeyAt s) cs
def searchPassword (cs : List Char) : Bool := reSearch (fun _ s => passwordAt s) cs
def searchSecret (cs : List Char) : Bool := reSearch (fun _ s => secretAt s) cs
def searchToken (cs : List Char) : Bool := reSearch (fun _ s => tokenAt s) cs
def searchBearer (cs : List Char) : Bool := reSearch (fun _ s => bearerAt s) cs

/-- One file matches the hardcoded-secret scan when any of the five
patterns matches anywhere in it (the `for pattern in patterns` loop of
`_has_hardcoded_secrets`). -/
def secretFileMatch (cs : List Char) : Bool :=
  searchApiKey cs || searchPassword cs || searchSecret cs || searchToken cs || searchBearer cs

/-- Word-boundary test for `\b` placed before a word character: the
previous character must be absent or a non-word character. -/
def wordBoundary (prev : Option Char) : Bool :=
  match prev with
  | none => true
  | some p => !isWordCh p

/-- Position matcher for `\beval\s*\(`. -/
def evalCallAt (prev : Option Char) (cs : List Char) : Bool :=
  wordBoundary prev &&
    (match dropLit "eval".data cs with
     | some r =>
       (match dropWs r with
        | c :: _ => c = '('
        | [] => false)
     | none => false)

/-- Position matcher for `\bexec\s*\(`. -/
def execCallAt (prev : Option Char) (cs : List Char) : Bool :=
  wordBoundary prev &&
    (match dropLit "exec".data cs with
     | some r =>
       (match dropWs r with
        | c :: _ => c = '('
        | [] => false)
     | none => false)

/-- Position matcher for `shell\s*=\s*True`. -/
def shellTrueAt (cs : List Char) : Bool :=
  match dropLit "shell".data cs with
  | some r =>
    (match dropWs r with
     | c :: r2 =>
       c = '=' &&
         (match dropLit "True".data (dropWs r2) with
          | some _ => true
          | none => false)
     | [] => false)
  | none => false

/-- Position matcher for `os\.system\(`. -/
def osSystemAt (cs : List Char) : Bool :=
  match dropLit "os.system(".data cs with
  | some _ => true
  | none => false

/-- Search for a literal pattern without crossing a newline (used for the
`.*` of `subprocess\..*shell=True`, where `.` does not match `\n`). -/
def findNoNl (pat : List Char) : List Char → Bool
  | [] => isPre pat []
  | c :: cs => isPre pat (c :: cs) || (c != '\n' && findNoNl pat cs)

/-- Position matcher for `subprocess\..*shell=True`. -/
def subprocessAt (cs : List Char) : Bool :=
  match dropLit "subprocess.".data cs with
  | some r => findNoNl "shell=True".data r
  | none => false

/-- `re.search` for each of the five dangerous-code patterns. -/
def searchEvalCall (cs : List Char) : Bool := reSearch evalCallAt cs
def searchExecCall (cs : List Char) : Bool := reSearch execCallAt cs
def searchShellTrue (cs : List Char) : Bool := reSearch (fun _ s => shellTrueAt s) cs
def searchOsSystem (cs : List Char) : Bool := reSearch (fun _ s => osSystemAt s) cs
def searchSubprocess (cs : List Char) : Bool := reSearch (fun _ s => subprocessAt s) cs

/-- One script file matches the dangerous-pattern scan when any of the
five patterns matches anywhere in it (`_has_dangerous_patterns`). -/
def dangerFileMatch (cs : List Char) : Bool :=
  searchEvalCall cs || searchExecCall cs || searchShellTrue cs ||
    searchOsSystem cs || searchSubprocess cs

/-- The character just before the end of `l`, seen from a scan that
entered `l` with previous character `prev`. -/
def lastPrev (prev : Option Char) (l : List Char) : Option Char :=
  match l.getLast? with
  | some c => some c
  | none => prev

theorem searchFrom_append (p : Option Char → List Char → Bool) :
    ∀ (l : List Char) (prev : Option Char) (m : List Char),
      p (lastPrev prev l) m = true → searchFrom p prev (l ++ m) = true := by
  intro l
  induction l with
  | nil =>
    intro prev m h
    rw [show lastPrev prev [] = prev from rfl] at h
    cases m with
    | nil => simpa [searchFrom] using h
    | cons c cs => simp only [List.nil_append, searchFrom]; simp [h]
  | cons x xs ih =>
    intro prev m h
    simp only [List.cons_append, searchFrom]
    have : lastPrev prev (x :: xs) = lastPrev (some x) xs := by
      unfold lastPrev
      cases xs with
      | nil => simp [List.getLast?_singleton]
      | cons y ys =>
        rw [List.getLast?_cons_cons]
        cases h2 : (y :: ys).getLast? with
        | none =>
          have hs : (y :: ys).getLast?.isSome = true := List.getLast?_isSome.mpr (by simp)
          rw [h2] at hs
          cases hs
        | some c => rfl
    rw [this] at h
    simp [ih (some x) m h]

/-! ### Python string utilities -/

/-- Python `str.strip()`: remove leading and trailing whitespace. -/
def pyStrip (cs : List Char) : List Char :=
  ((cs.dropWhile isPyWs).reverse.dropWhile isPyWs).reverse

/-- Accumulator worker for `pyWords`. -/
def pyWordsAux : List Char → List Char → List (List Char)
  | [], acc => if acc.isEmpty then [] else [acc.reverse]
  | c :: cs, acc =>
    if isPyWs c then
      if acc.isEmpty then pyWordsAux cs [] else acc.reverse :: pyWordsAux cs []
    else pyWordsAux cs (c :: acc)

/-- Python `str.split()` with no arguments: split on whitespace runs,
dropping empty pieces. -/
def pyWords (cs : List Char) : List (List Char) :=
  pyWordsAux cs []

/-- Number of lines produced by Python `f.readlines()`: the count of
newline characters, plus one for a trailing fragment not ended by a
newline. -/
def lineCount (cs : List Char) : Nat :=
  match cs with
  | [] => 0
  | _ => cs.count '\n' + (if cs.getLast? = some '\n' then 0 else 1)

/-- Fuel-driven worker for `pySplit`. -/
def pySplitAux : Nat → List Char → List Char → List (List Char)
  | 0, _, cs => [cs]
  | fuel + 1, sep, cs =>
    match splitFirst sep cs with
    | none => [cs]
    | some (a, b) => a :: pySplitAux fuel sep b

/-- Python `str.split(sep)`: split on every occurrence of a (non-empty)
separator, keeping empty pieces.  The fuel `length + 1` is enough because
every separator occurrence consumes at least one character. -/
def pySplit (sep cs : List Char) : List (List Char) :=
  pySplitAux (cs.length + 1) sep cs

/-- Fuel-driven worker for `countSub`. -/
def countSubAux : Nat → List Char → List Char → Nat
  | 0, _, _ => 0
  | fuel + 1, pat, cs =>
    match splitFirst pat cs with
    | none => 0
    | some (_, b) => 1 + countSubAux fuel pat b

/-- Python `str.count(sub)`: number of non-overlapping occurrences,
scanning from the left. -/
def countSub (pat cs : List Char) : Nat :=
  countSubAux (cs.length + 1) pat cs

/-! ### Frontmatter (`_has_valid_yaml`) -/

/-- The opening frontmatter delimiter `---\n` that the primary document
must start with. -/
def fmOpen : List Char := "---\n".data

/-- The closing frontmatter delimiter `\n---\n` searched from index 4
(`content.find('\n---\n', 4)`). -/
def fmClose : List Char := "\n---\n".data

/-- `_has_valid_yaml`: the document starts with `---\n`, a closing
`\n---\n` occurs later, and the enclosed block contains the substrings
`name:` and `description:`. -/
def hasValidYaml (content : List Char) : Bool :=
  if isPre fmOpen content then
    match splitFirst fmClose (content.drop 4) with
    | some (fm, _) => containsSub "name:".data fm && containsSub "description:".data fm
    | none => false
  else false

/-- Frontmatter removal step of `_count_imperative_sentences`: when the
document starts with `---\n` and a closing `\n---\n` exists, keep only
the text after the closing delimiter. -/
def stripFrontmatter (content : List Char) : List Char :=
  if isPre fmOpen content then
    match splitFirst fmClose (content.drop 4) with
    | some (_, rest) => rest
    | none => content
  else content

/-! ### Fenced code blocks (`re.sub(r'```.*?```', '', ..., re.DOTALL)`) -/

/-- A code fence. -/
def ticks : List Char := "```".data

/-- Fuel-driven worker for `removeCodeBlocks`: repeatedly delete the
leftmost shortest fence-delimited block (non-greedy `.*?` with DOTALL). -/
def removeCodeBlocksAux : Nat → List Char → List Char
  | 0, cs => cs
  | fuel + 1, cs =>
    match splitFirst ticks cs with
    | none => cs
    | some (a, b) =>
      match splitFirst ticks b with
      | none => cs
      | some (_, d) => a ++ removeCodeBlocksAux fuel d

/-- Remove every fenced code block from the text. -/
def removeCodeBlocks (cs : List Char) : List Char :=
  removeCodeBlocksAux cs.length cs

/-! ### Sentence segmentation -/

/-- Sentence-terminating punctuation (`[.!?]`). -/
def isSentPunct (c : Char) : Bool :=
  c = '.' || c = '!' || c = '?'

/-- `re.split(r'[.!?]\n', text)`: split at every punctuation character
immediately followed by a newline, consuming both. -/
def splitPunctNl : List Char → List (List Char)
  | [] => [[]]
  | [c] => [[c]]
  | c :: d :: rest =>
    if isSentPunct c && d = '\n' then
      [] :: splitPunctNl rest
    else
      match splitPunctNl (d :: rest) with
      | [] => [[c]]
      | s :: ss => (c :: s) :: ss

theorem dropWhile_length_le (p : Char → Bool) :
    ∀ l : List Char, (l.dropWhile p).length ≤ l.length := by
  intro l
  induction l with
  | nil => simp [List.dropWhile]
  | cons c cs ih =>
    by_cases h : p c = true
    · simp only [List.dropWhile, h]
      exact Nat.le_succ_of_le ih
    · simp [List.dropWhile, h]

/-- `re.split(r'[.!?]\s+', text)`: split at every punctuation character
followed by at least one whitespace character, consuming the punctuation
and the whole (greedy) whitespace run. -/
def splitPunctWs : List Char → List (List Char)
  | [] => [[]]
  | c :: cs =>
    if isSentPunct c && (match cs with | d :: _ => isPyWs d | [] => false) then
      [] :: splitPunctWs (cs.dropWhile isPyWs)
    else
      match splitPunctWs cs with
      | [] => [[c]]
      | s :: ss => (c :: s) :: ss
termination_by cs => cs.length
decreasing_by
  · exact Nat.lt_succ_of_le (dropWhile_length_le _ _)
  · exact Nat.lt_succ_self _

/-! ### Markdown cleanup of a sentence (`_count_imperative_sentences`) -/

/-- The backtick character. -/
def btick : Char := '\x60'

/-- Match `\*\*([^*]+)\*\*` at the current position; on success return
the captured group and the remainder after the match. -/
def tryBoldAt : List Char → Option (List Char × List Char)
  | '*' :: '*' :: rest =>
    let run := rest.takeWhile (fun c => c ≠ '*')
    match rest.dropWhile (fun c => c ≠ '*') with
    | '*' :: '*' :: rest' => if run.isEmpty then none else some (run, rest')
    | _ => none
  | _ => none

/-- Match `\*([^*]+)\*` at the current position. -/
def tryItalicAt : List Char → Option (List Char × List Char)
  | '*' :: rest =>
    let run := rest.takeWhile (fun c => c ≠ '*')
    match rest.dropWhile (fun c => c ≠ '*') with
    | '*' :: rest' => if run.isEmpty then none else some (run, rest')
    | _ => none
  | _ => none

/-- Match the inline-code pattern (backtick, one or more non-backtick
characters, backtick) at the current position. -/
def tryCodeAt : List Char → Option (List Char × List Char)
  | c :: rest =>
    if c = btick then
      let run := rest.takeWhile (fun x => x ≠ btick)
      match rest.dropWhile (fun x => x ≠ btick) with
      | _ :: rest' => if run.isEmpty then none else some (run, rest')
      | [] => none
    else none
  | [] => none

/-- Match `\[([^\]]+)\]\([^\)]+\)` at the current position, returning the
link text. -/
def tryLinkAt : List Char → Option (List Char × List Char)
  | '[' :: rest =>
    let t := rest.takeWhile (fun c => c ≠ ']')
    match rest.dropWhile (fun c => c ≠ ']') with
    | ']' :: '(' :: rest2 =>
      let u := rest2.takeWhile (fun c => c ≠ ')')
      match rest2.dropWhile (fun c => c ≠ ')') with
      | ')' :: rest3 => if t.isEmpty || u.isEmpty then none else some (t, rest3)
      | _ => none
    | _ => none
  | _ => none

/-- Fuel-driven `re.sub` driver: at every position try the pattern; on a
match emit the replacement (the captured group) and continue after the
match, otherwise keep the character and move on. -/
def subPatAux (tryAt : List Char → Option (List Char × List Char)) :
    Nat → List Char → List Char
  | 0, cs => cs
  | _, [] => []
  | fuel + 1, c :: cs =>
    match tryAt (c :: cs) with
    | some (rep, rest) => rep ++ subPatAux tryAt fuel rest
    | none => c :: subPatAux tryAt fuel cs

/-- `re.sub(r'\*\*([^*]+)\*\*', r'\1', s)`. -/
def subBold (cs : List Char) : List Char := subPatAux tryBoldAt (cs.length + 1) cs

/-- `re.sub(r'\*([^*]+)\*', r'\1', s)`. -/
def subItalic (cs : List Char) : List Char := subPatAux tryItalicAt (cs.length + 1) cs

/-- Inline-code removal (backtick-delimited), keeping the contents. -/
def subCode (cs : List Char) : List Char := subPatAux tryCodeAt (cs.length + 1) cs

/-- `re.sub(r'\[([^\]]+)\]\([^\)]+\)', r'\1', s)`. -/
def subLink (cs : List Char) : List Char := subPatAux tryLinkAt (cs.length + 1) cs

/-- `re.sub(r'^[\-\*\+]\s+', '', s)`: remove a leading list marker and
the whitespace run after it (anchored at the string start only). -/
def stripListMarker : List Char → List Char
  | c :: d :: rest =>
    if (c = '-' || c = '*' || c = '+') && isPyWs d then (d :: rest).dropWhile isPyWs
    else c :: d :: rest
  | cs => cs

/-- The full markdown cleanup applied to one sentence: bold, italic,
inline code, links, leading list marker, then `strip()`. -/
def cleanSentence (s : List Char) : List Char :=
  pyStrip (stripListMarker (subLink (subCode (subItalic (subBold s)))))

/-- The fixed imperative-verb list of `_count_imperative_sentences`. -/
def imperativeVerbs : List (List Char) :=
  ["use", "run", "execute", "create", "configure", "install",
   "check", "validate", "ensure", "verify", "set", "define",
   "specify", "provide", "include", "add", "remove", "update",
   "follow", "read", "write", "call", "invoke", "load", "scan",
   "extract", "detect", "discover", "generate", "implement"].map String.data

/-- A sentence counts as imperative when, after cleanup, any of its first
three (lower-cased) words starts with an imperative verb; an empty
cleaned sentence is skipped (never counted). -/
def sentenceIsImperative (s : List Char) : Bool :=
  let clean := cleanSentence s
  if clean.isEmpty then false
  else
    ((pyWords (clean.map Char.toLower)).take 3).any
      (fun w => imperativeVerbs.any (fun v => isPre v w))

/-- The sentence units of the imperative-ratio check: strip frontmatter,
remove fenced code blocks, split on punctuation-plus-newline, strip each
piece and keep those longer than 10 characters. -/
def sentenceUnits (content : List Char) : List (List Char) :=
  ((splitPunctNl (removeCodeBlocks (stripFrontmatter content))).map pyStrip).filter
    (fun s => s.length > 10)

/-- `_count_imperative_sentences`: the ratio of imperative sentences to
all sentences (0 when there are no sentences). -/
def countImperativeSentences (content : List Char) : ℚ :=
  let sentences := sentenceUnits content
  if sentences.isEmpty then 0
  else ((sentences.countP sentenceIsImperative : ℕ) : ℚ) / sentences.length

/-- The sentence units of the average-length check (deliberately a
different segmentation: punctuation followed by whitespace, and no
frontmatter stripping). -/
def avgSentenceUnits (content : List Char) : List (List Char) :=
  ((splitPunctWs (removeCodeBlocks content)).map pyStrip).filter
    (fun s => s.length > 10)

/-- `_calculate_avg_sentence_length`: average word count per sentence
(0 when there are no sentences). -/
def calcAvgSentenceLength (content : List Char) : ℚ :=
  let sentences := avgSentenceUnits content
  if sentences.isEmpty then 0
  else (((sentences.map (fun s => (pyWords s).length)).sum : ℕ) : ℚ) / sentences.length

/-! ### Level-2 header extraction (`re.findall(r'^##\s+(.+)$', ..., re.M)`) -/

/-- Split off the current line: the characters before the next newline,
and the remainder starting at that newline (or `[]`). -/
def takeLine : List Char → List Char × List Char
  | [] => ([], [])
  | c :: cs =>
    if c = '\n' then ([], c :: cs)
    else
      let p := takeLine cs
      (c :: p.1, p.2)

/-- Backtracking step of `^##\s+(.+)$` when the greedy `\s+` reached the
end of the text: the group becomes the last non-newline whitespace
character, provided at least one whitespace character precedes it. -/
def backtrackWs (w : List Char) : Option (List Char × List Char) :=
  let rw := w.reverse
  match rw.dropWhile (fun c => c = '\n') with
  | c :: _ :: _ => some ([c], (rw.takeWhile (fun c => c = '\n')).reverse)
  | _ => none

/-- Match `##\s+(.+)$` at a line start (`\s` may cross newlines, `.` and
`$` are line-bounded); returns the captured group and the remainder after
the match. -/
def headerAt : List Char → Option (List Char × List Char)
  | '#' :: '#' :: r =>
    let w := r.takeWhile isPyWs
    if w.isEmpty then none
    else
      match r.dropWhile isPyWs with
      | c :: rest' => some (takeLine (c :: rest'))
      | [] => backtrackWs w
  | _ => none

/-- Advance past the next newline (to the next line start). -/
def skipLine : List Char → List Char
  | [] => []
  | c :: cs => if c = '\n' then cs else skipLine cs

/-- Fuel-driven `re.findall` scan over line starts. -/
def findHeadersAux : Nat → List Char → List (List Char)
  | 0, _ => []
  | fuel + 1, cs =>
    match headerAt cs with
    | some (hdr, rest) => hdr :: findHeadersAux fuel (skipLine rest)
    | none =>
      match cs with
      | [] => []
      | _ => findHeadersAux fuel (skipLine cs)

/-- All level-2 header texts of the document. -/
def findHeaders (content : List Char) : List (List Char) :=
  findHeadersAux (content.length + 1) content

/-- A header is descriptive when (after `strip()`) it has more than two
words, or contains an uppercase letter beyond its first character, a
hyphen, or an underscore (`_has_clear_headers`). -/
def headerDescriptive (h : List Char) : Bool :=
  let hc := pyStrip h
  decide ((pyWords hc).length > 2) || (hc.drop 1).any (fun c => c.isUpper) ||
    hc.contains '-' || hc.contains '_'

/-- `_has_clear_headers`: there is at least one level-2 header and at
least 70% of the headers are descriptive. -/
def hasClearHeaders (content : List Char) : Bool :=
  let headers := findHeaders content
  if headers.isEmpty then false
  else decide (10 * headers.countP headerDescriptive ≥ 7 * headers.length)

/-! ### Examples header and list markers -/

/-- Match `\s*$` against the whole remainder `r` (with `$` in MULTILINE
mode): either only whitespace remains, or the whitespace run before the
first non-whitespace contains a newline for `$` to anchor at. -/
def tailWsEnd (r : List Char) : Bool :=
  (r.dropWhile isPyWs).isEmpty || (r.takeWhile isPyWs).contains '\n'

/-- Match `##\s+Examples?\s*$` at a line start
(`_has_inline_examples`). -/
def examplesHeaderAt : List Char → Bool
  | '#' :: '#' :: r =>
    let w := r.takeWhile isPyWs
    if w.isEmpty then false
    else
      match dropLit "Example".data (r.dropWhile isPyWs) with
      | some r2 =>
        (match r2 with
         | 's' :: r3 => tailWsEnd r3 || tailWsEnd r2
         | _ => tailWsEnd r2)
      | none => false
  | _ => false

/-- Try a line-start matcher after every newline of the text. -/
def afterNlSearch (p : List Char → Bool) : List Char → Bool
  | [] => false
  | c :: cs => (c = '\n' && p cs) || afterNlSearch p cs

/-- `re.search` with a `^`-anchored pattern in MULTILINE mode: try the
matcher at the start of the text and after every newline. -/
def searchMultiline (p : List Char → Bool) (cs : List Char) : Bool :=
  p cs || afterNlSearch p cs

/-- `re.search(r'^##\s+Examples?\s*$', content, re.M)`. -/
def hasSeparateExamplesHeader (content : List Char) : Bool :=
  searchMultiline examplesHeaderAt content

/-- Match `[\-\*]\s` at the current position. -/
def listMarkerAt : List Char → Bool
  | c :: d :: _ => (c = '-' || c = '*') && isPyWs d
  | _ => false

/-- `re.search(r'^[\-\*]\s', content, re.M)`. -/
def hasListMarker (content : List Char) : Bool :=
  searchMultiline listMarkerAt content

/-! ### The artifact snapshot -/

/-- A loaded skill artifact.  `skillMd` is the text of the primary
document `SKILL.md` (the loader fails when it is absent, so it is a total
field).  `refStems` is `none` when no `references` subdirectory exists,
and otherwise the list of file-name stems of the markdown files in it.
`scriptFiles` holds the contents of the Python script files found
anywhere under the artifact directory (`rglob('*.py')`), and
`otherTextFiles` the contents of the remaining files whose extension is
among `.md`, `.py`, `.sh`, `.yml`, `.yaml` (reference documents and
config files); together with `skillMd` and `scriptFiles` these are the
files scanned by the secret check. -/
structure SkillArtifact where
  skillMd : String
  refStems : Option (List String)
  scriptFiles : List String
  otherTextFiles : List String
deriving Repr, DecidableEq

/-- A category result: integer score, fixed maximum, percentage
(`score / max * 100`, modelled exactly in ℚ), and the ordered issue
list. -/
structure CategoryResult where
  score : Nat
  max : Nat
  percentage : ℚ
  issues : List String
deriving Repr, DecidableEq

/-- The aggregated overall result of `calculate_overall_score`. -/
structure OverallResult where
  score : Nat
  max : Nat
  percentage : ℚ
  grade : String
  issues : List String
  categories : List (String × CategoryResult)
deriving Repr, DecidableEq

/-- `references` directory exists and holds at least one markdown file. -/
def hasRefMd (a : SkillArtifact) : Bool :=
  match a.refStems with
  | some stems => !stems.isEmpty
  | none => false

/-- `_has_proper_structure`: `SKILL.md` exists (loader guarantee), and if
a `references` directory exists it must contain a markdown file. -/
def hasProperStructure (a : SkillArtifact) : Bool :=
  match a.refStems with
  | some stems => !stems.isEmpty
  | none => true

/-- `_uses_progressive_disclosure`: the primary document has fewer than
500 lines, or references exist. -/
def usesProgressiveDisclosure (a : SkillArtifact) : Bool :=
  decide (lineCount a.skillMd.data < 500) || hasRefMd a

/-- Python `str.isalnum()` on ASCII text: non-empty and all
alphanumeric. -/
def pyIsAlnum (cs : List Char) : Bool :=
  !cs.isEmpty && cs.all Char.isAlphanum

/-- Per-file test of `_references_organized`: the stem with hyphens and
underscores removed must be alphanumeric (`str.isalnum`), and the stem
must contain no space. -/
def stemOk (s : String) : Bool :=
  pyIsAlnum (s.data.filter (fun c => c ≠ '-' && c ≠ '_')) && !(s.data.contains ' ')

/-- `_references_organized`: vacuously true without a `references`
directory, otherwise every markdown reference stem must pass `stemOk`. -/
def referencesOrganized (a : SkillArtifact) : Bool :=
  match a.refStems with
  | none => true
  | some stems => stems.all stemOk

/-- `score_structure` (max 20). -/
def scoreStructure (a : SkillArtifact) : CategoryResult :=
  let s1 : Nat := if hasValidYaml a.skillMd.data then 5 else 0
  let i1 : List String := if hasValidYaml a.skillMd.data then [] else ["YAML frontmatter invalid or missing"]
  let s2 : Nat := if hasProperStructure a then 5 else 0
  let i2 : List String := if hasProperStructure a then [] else ["File structure not optimal"]
  let s3 : Nat := if usesProgressiveDisclosure a then 5 else 0
  let i3 : List String := if usesProgressiveDisclosure a then [] else ["Progressive disclosure not implemented"]
  let s4 : Nat := if referencesOrganized a then 5 else 0
  let i4 : List String := if referencesOrganized a then [] else ["References not properly organized"]
  let score := s1 + s2 + s3 + s4
  { score := score, max := 20, percentage := ((score : ℚ) / 20) * 100,
    issues := i1 ++ i2 ++ i3 ++ i4 }

/-! ### Content scoring -/

/-- The fixed WHAT keyword set of `_score_description`. -/
def whatKeywords : List (List Char) :=
  ["comprehensive", "provides", "enables", "supports", "tools for",
   "guide", "system", "framework", "utility"].map String.data

/-- The fixed WHEN keyword set of `_score_description`. -/
def whenKeywords : List (List Char) :=
  ["when", "use when", "trigger", "for tasks", "invoke",
   "if", "needs to", "requires", "working with"].map String.data

/-- `_score_description` (0, 5 or 10): keyword presence in the lowercased
first 1000 characters. -/
def scoreDescription (content : List Char) : Nat :=
  let rel := (content.take 1000).map Char.toLower
  let hasWhat := whatKeywords.any (fun kw => containsSub kw rel)
  let hasWhen := whenKeywords.any (fun kw => containsSub kw rel)
  if hasWhat && hasWhen then 10
  else if hasWhat || hasWhen then 5
  else 0

/-- The fixed trigger keyword set of `_has_clear_triggers`. -/
def triggerKeywords : List (List Char) :=
  ["use when", "trigger", "invoke", "activate",
   "when claude needs", "use this skill"].map String.data

/-- `_has_clear_triggers`: keyword presence in the lowercased first 1500
characters. -/
def hasClearTriggers (content : List Char) : Bool :=
  let rel := (content.take 1500).map Char.toLower
  triggerKeywords.any (fun kw => containsSub kw rel)

/-- The fixed action-verb list of `_score_writing_style`. -/
def actionVerbs : List (List Char) :=
  ["use", "run", "execute", "create", "configure",
   "install", "check", "validate", "ensure"].map String.data

/-- `_score_writing_style` (0–10, additive, capped at 10). -/
def scoreWritingStyle (content : List Char) : Nat :=
  let hasCodeBlocks := containsSub ticks content
  let hasLists := hasListMarker content
  let hasTables := content.contains '|'
  let s1 : Nat := if hasCodeBlocks || hasLists then 3 else 0
  let s2 : Nat := if hasTables then 2 else 0
  let verbCount := (actionVerbs.map (fun v => countSub v (content.map Char.toLower))).sum
  let s3 : Nat := if verbCount > 10 then 3 else if verbCount > 5 then 2 else 0
  let s4 : Nat := if (findHeaders content).length ≥ 3 then 2 else 0
  min (s1 + s2 + s3 + s4) 10

/-- `_has_inline_examples`: a fenced code block exists and no standalone
`## Examples` / `## Example` header exists. -/
def hasInlineExamples (content : List Char) : Bool :=
  containsSub ticks content && !hasSeparateExamplesHeader content

/-- `score_content` (max 30). -/
def scoreContent (a : SkillArtifact) : CategoryResult :=
  let content := a.skillMd.data
  let descScore := scoreDescription content
  let i1 : List String := if descScore < 10 then ["Description missing WHAT or WHEN"] else []
  let s2 : Nat := if hasClearTriggers content then 5 else 0
  let i2 : List String := if hasClearTriggers content then [] else ["Trigger conditions unclear"]
  let styleScore := scoreWritingStyle content
  let i3 : List String := if styleScore < 10 then ["Writing style not agent-optimized"] else []
  let s4 : Nat := if hasInlineExamples content then 5 else 0
  let i4 : List String := if hasInlineExamples content then [] else ["Examples missing or in separate section"]
  let score := descScore + s2 + styleScore + s4
  { score := score, max := 30, percentage := ((score : ℚ) / 30) * 100,
    issues := i1 ++ i2 ++ i3 ++ i4 }

/-! ### Efficiency scoring -/

/-- `_detect_bloat`: a section (split on `\n## `) longer than 150 lines,
or (for documents over 100 lines) a distinct-line ratio below 0.7. -/
def detectBloat (content : List Char) : Bool :=
  let sections := pySplit "\n## ".data content
  let longSection := sections.any (fun sec => decide ((pySplit "\n".data sec).length > 150))
  let lines := pySplit "\n".data content
  longSection ||
    (decide (lines.length > 100) && decide (10 * lines.dedup.length < 7 * lines.length))

/-- `score_efficiency` (max 20). -/
def scoreEfficiency (a : SkillArtifact) : CategoryResult :=
  let content := a.skillMd.data
  let lc := lineCount content
  let s1 : Nat := if lc < 500 then 10 else if lc < 800 then 5 else 0
  let i1 : List String :=
    if lc < 500 then []
    else if lc < 800 then ["SKILL.md longer than ideal (" ++ toString lc ++ " lines)"]
    else ["SKILL.md too long (" ++ toString lc ++ " lines)"]
  let estTokens := content.length / 4
  let s2 : Nat := if estTokens < 5000 then 5 else 0
  let i2 : List String :=
    if estTokens < 5000 then [] else ["Estimated tokens high (~" ++ toString estTokens ++ ")"]
  let s3 : Nat := if detectBloat content then 0 else 5
  let i3 : List String := if detectBloat content then ["Content bloat detected"] else []
  let score := s1 + s2 + s3
  { score := score, max := 20, percentage := ((score : ℚ) / 20) * 100,
    issues := i1 ++ i2 ++ i3 }

/-! ### Security scoring -/

/-- The files scanned by `_has_hardcoded_secrets` (all files under the
artifact directory with extension `.md`, `.py`, `.sh`, `.yml` or
`.yaml`): the primary document, the scripts, and the other text files. -/
def secretScanFiles (a : SkillArtifact) : List String :=
  a.skillMd :: (a.scriptFiles ++ a.otherTextFiles)

/-- `_has_hardcoded_secrets`. -/
def hasHardcodedSecrets (a : SkillArtifact) : Bool :=
  (secretScanFiles a).any (fun f => secretFileMatch f.data)

/-- `_has_dangerous_patterns`: scan every Python script. -/
def hasDangerousPatterns (a : SkillArtifact) : Bool :=
  a.scriptFiles.any (fun s => dangerFileMatch s.data)

/-- The first three validation keywords, looked for in the lowercased
primary document. -/
def validationDocKeywords : List (List Char) :=
  ["validate", "check", "verify"].map String.data

/-- The full validation keyword list, looked for verbatim in scripts. -/
def validationKeywords : List (List Char) :=
  ["validate", "check", "verify", "assert", "raise",
   "isinstance", "try:", "except:", "if not"].map String.data

/-- `_has_input_validation`. -/
def hasInputValidation (a : SkillArtifact) : Bool :=
  (validationDocKeywords.any (fun kw => containsSub kw (a.skillMd.data.map Char.toLower))) ||
    a.scriptFiles.any (fun s => validationKeywords.any (fun kw => containsSub kw s.data))

/-- `score_security` (max 15). -/
def scoreSecurity (a : SkillArtifact) : CategoryResult :=
  let s1 : Nat := if hasHardcodedSecrets a then 0 else 5
  let i1 : List String := if hasHardcodedSecrets a then ["Hardcoded secrets detected"] else []
  let s2 : Nat := if hasDangerousPatterns a then 0 else 5
  let i2 : List String := if hasDangerousPatterns a then ["Dangerous code patterns detected"] else []
  let s3 : Nat := if hasInputValidation a then 5 else 0
  let i3 : List String := if hasInputValidation a then [] else ["Input validation missing or weak"]
  let score := s1 + s2 + s3
  { score := score, max := 15, percentage := ((score : ℚ) / 15) * 100,
    issues := i1 ++ i2 ++ i3 }

/-! ### Style scoring -/

/-- The imperative-ratio sub-score and its issue list (the first branch
of `score_style`): ratio above 0.5 earns 5, above 0.3 earns 3 with an
issue, otherwise 0 with an issue. -/
def imperativePart (r : ℚ) : Nat × List String :=
  if r > 1/2 then (5, [])
  else if r > 3/10 then (3, ["More imperative voice recommended"])
  else (0, ["Not using imperative voice"])

/-- The sentence-length sub-score and its issue list (the second branch
of `score_style`). -/
def sentenceLengthPart (len : ℚ) : Nat × List String :=
  if len < 20 then (5, [])
  else if len < 30 then (3, ["Sentences could be more concise"])
  else (0, ["Sentences too verbose"])

/-- `score_style` (max 15). -/
def scoreStyle (a : SkillArtifact) : CategoryResult :=
  let content := a.skillMd.data
  let p1 := imperativePart (countImperativeSentences content)
  let p2 := sentenceLengthPart (calcAvgSentenceLength content)
  let s3 : Nat := if hasClearHeaders content then 5 else 0
  let i3 : List String := if hasClearHeaders content then [] else ["Headers not descriptive enough"]
  let score := p1.1 + p2.1 + s3
  { score := score, max := 15, percentage := ((score : ℚ) / 15) * 100,
    issues := p1.2 ++ p2.2 ++ i3 }

/-! ### Aggregation -/

/-- `_get_grade`: percentage to letter grade, inclusive thresholds
evaluated high to low. -/
def getGrade (percentage : ℚ) : String :=
  if percentage ≥ 90 then "A (Excellent)"
  else if percentage ≥ 80 then "B (Good)"
  else if percentage ≥ 70 then "C (Fair)"
  else if percentage ≥ 60 then "D (Needs Improvement)"
  else "F (Poor)"

/-- `calculate_overall_score`: run the five categories, sum scores and
maxima, derive percentage and grade, and flatten the issue lists with
capitalized category prefixes in declaration order. -/
def calculateOverallScore (a : SkillArtifact) : OverallResult :=
  let rs := scoreStructure a
  let rc := scoreContent a
  let re := scoreEfficiency a
  let rsec := scoreSecurity a
  let rst := scoreStyle a
  let totalScore := rs.score + rc.score + re.score + rsec.score + rst.score
  let totalMax := rs.max + rc.max + re.max + rsec.max + rst.max
  let pct : ℚ := ((totalScore : ℚ) / totalMax) * 100
  { score := totalScore
    max := totalMax
    percentage := pct
    grade := getGrade pct
    issues :=
      rs.issues.map (fun i => "Structure: " ++ i) ++
      rc.issues.map (fun i => "Content: " ++ i) ++
      re.issues.map (fun i => "Efficiency: " ++ i) ++
      rsec.issues.map (fun i => "Security: " ++ i) ++
      rst.issues.map (fun i => "Style: " ++ i)
    categories :=
      [("structure", rs), ("content", rc), ("efficiency", re),
       ("security", rsec), ("style", rst)] }

/-! ### Category bounds and shapes -/

theorem scoreDescription_le (c : List Char) : scoreDescription c ≤ 10 := by
  unfold scoreDescription
  dsimp only
  split_ifs <;> norm_num

theorem scoreWritingStyle_le (c : List Char) : scoreWritingStyle c ≤ 10 := by
  unfold scoreWritingStyle
  exact Nat.min_le_right _ _

theorem imperativePart_fst_le (r : ℚ) : (imperativePart r).1 ≤ 5 := by
  unfold imperativePart
  split_ifs <;> norm_num

theorem sentenceLengthPart_fst_le (r : ℚ) : (sentenceLengthPart r).1 ≤ 5 := by
  unfold sentenceLengthPart
  split_ifs <;> norm_num

theorem scoreStructure_score_le (a : SkillArtifact) : (scoreStructure a).score ≤ 20 := by
  unfold scoreStructure
  dsimp only
  split_ifs <;> norm_num

theorem scoreContent_score_le (a : SkillArtifact) : (scoreContent a).score ≤ 30 := by
  have h1 := scoreDescription_le a.skillMd.data
  have h2 := scoreWritingStyle_le a.skillMd.data
  unfold scoreContent
  dsimp only
  split_ifs <;> omega

theorem scoreEfficiency_score_le (a : SkillArtifact) : (scoreEfficiency a).score ≤ 20 := by
  unfold scoreEfficiency
  dsimp only
  split_ifs <;> norm_num

theorem scoreSecurity_score_le (a : SkillArtifact) : (scoreSecurity a).score ≤ 15 := by
  unfold scoreSecurity
  dsimp only
  split_ifs <;> norm_num

theorem scoreStyle_score_le (a : SkillArtifact) : (scoreStyle a).score ≤ 15 := by
  have h1 := imperativePart_fst_le (countImperativeSentences a.skillMd.data)
  have h2 := sentenceLengthPart_fst_le (calcAvgSentenceLength a.skillMd.data)
  unfold scoreStyle
  dsimp only
  split_ifs <;> omega

theorem scoreStructure_pct (a : SkillArtifact) :
    (scoreStructure a).percentage = 100 * ((scoreStructure a).score : ℚ) / (scoreStructure a).max := by
  unfold scoreStructure
  dsimp only
  push_cast
  ring

theorem scoreContent_pct (a : SkillArtifact) :
    (scoreContent a).percentage = 100 * ((scoreContent a).score : ℚ) / (scoreContent a).max := by
  unfold scoreContent
  dsimp only
  push_cast
  ring

theorem scoreEfficiency_pct (a : SkillArtifact) :
    (scoreEfficiency a).percentage = 100 * ((scoreEfficiency a).score : ℚ) / (scoreEfficiency a).max := by
  unfold scoreEfficiency
  dsimp only
  push_cast
  ring

theorem scoreSecurity_pct (a : SkillArtifact) :
    (scoreSecurity a).percentage = 100 * ((scoreSecurity a).score : ℚ) / (scoreSecurity a).max := by
  unfold scoreSecurity
  dsimp only
  push_cast
  ring

theorem scoreStyle_pct (a : SkillArtifact) :
    (scoreStyle a).percentage = 100 * ((scoreStyle a).score : ℚ) / (scoreStyle a).max := by
  unfold scoreStyle
  dsimp only
  push_cast
  ring

theorem scoreStructure_issues_iff (a : SkillArtifact) :
    (scoreStructure a).issues = [] ↔ (scoreStructure a).score = (scoreStructure a).max := by
  unfold scoreStructure
  dsimp only
  split_ifs <;> simp

theorem scoreContent_issues_iff (a : SkillArtifact) :
    (scoreContent a).issues = [] ↔ (scoreContent a).score = (scoreContent a).max := by
  have h1 := scoreDescription_le a.skillMd.data
  have h2 := scoreWritingStyle_le a.skillMd.data
  unfold scoreContent
  dsimp only
  split_ifs <;> simp <;> omega

theorem scoreEfficiency_issues_iff (a : SkillArtifact) :
    (scoreEfficiency a).issues = [] ↔ (scoreEfficiency a).score = (scoreEfficiency a).max := by
  unfold scoreEfficiency
  dsimp only
  split_ifs <;> simp

theorem scoreSecurity_issues_iff (a : SkillArtifact) :
    (scoreSecurity a).issues = [] ↔ (scoreSecurity a).score = (scoreSecurity a).max := by
  unfold scoreSecurity
  dsimp only
  split_ifs <;> simp

theorem scoreStyle_issues_iff (a : SkillArtifact) :
    (scoreStyle a).issues = [] ↔ (scoreStyle a).score = (scoreStyle a).max := by
  unfold scoreStyle imperativePart sentenceLengthPart
  dsimp only
  split_ifs <;> simp

theorem scoreStructure_max (a : SkillArtifact) : (scoreStructure a).max = 20 := rfl
theorem scoreContent_max (a : SkillArtifact) : (scoreContent a).max = 30 := rfl
theorem scoreEfficiency_max (a : SkillArtifact) : (scoreEfficiency a).max = 20 := rfl
theorem scoreSecurity_max (a : SkillArtifact) : (scoreSecurity a).max = 15 := rfl
theorem scoreStyle_max (a : SkillArtifact) : (scoreStyle a).max = 15 := rfl

/-- A small sample artifact used by witnesses. -/
def artPlain : SkillArtifact :=
  { skillMd := "Just a short document with plain text", refStems := none,
    scriptFiles := [], otherTextFiles := [] }

/-- C1: for every artifact that loads successfully, every category score
is an integer within `[0, max]` with percentage `100·score/max`, the
category maxima are the fixed `20, 30, 20, 15, 15`, the overall score is
the sum of the five category scores, the overall max is exactly 100, and
the overall percentage is `100·score/max`. -/
theorem claim_C1_overall_aggregation (a : SkillArtifact) :
    (∀ c ∈ (calculateOverallScore a).categories,
        c.2.score ≤ c.2.max ∧ c.2.percentage = 100 * (c.2.score : ℚ) / c.2.max) ∧
    ((calculateOverallScore a).categories.map (fun c => c.2.max)) = [20, 30, 20, 15, 15] ∧
    (calculateOverallScore a).score =
      (((calculateOverallScore a).categories.map (fun c => c.2.score)).sum) ∧
    (calculateOverallScore a).max = 100 ∧
    (calculateOverallScore a).percentage =
      100 * ((calculateOverallScore a).score : ℚ) / (calculateOverallScore a).max := by
  refine ⟨?_, ?_, ?_, ?_, ?_⟩
  · intro c hc
    simp only [calculateOverallScore, List.mem_cons, List.mem_singleton, List.not_mem_nil,
      or_false] at hc
    rcases hc with rfl | rfl | rfl | rfl | rfl
    · exact ⟨by rw [scoreStructure_max]; exact scoreStructure_score_le a, scoreStructure_pct a⟩
    · exact ⟨by rw [scoreContent_max]; exact scoreContent_score_le a, scoreContent_pct a⟩
    · exact ⟨by rw [scoreEfficiency_max]; exact scoreEfficiency_score_le a, scoreEfficiency_pct a⟩
    · exact ⟨by rw [scoreSecurity_max]; exact scoreSecurity_score_le a, scoreSecurity_pct a⟩
    · exact ⟨by rw [scoreStyle_max]; exact scoreStyle_score_le a, scoreStyle_pct a⟩
  · simp [calculateOverallScore, scoreStructure_max, scoreContent_max, scoreEfficiency_max,
      scoreSecurity_max, scoreStyle_max]
  · simp only [calculateOverallScore, List.map_cons, List.map_nil, List.sum_cons, List.sum_nil]
    omega
  · simp [calculateOverallScore, scoreStructure_max, scoreContent_max, scoreEfficiency_max,
      scoreSecurity_max, scoreStyle_max]
  · simp only [calculateOverallScore, scoreStructure_max, scoreContent_max, scoreEfficiency_max,
      scoreSecurity_max, scoreStyle_max]
    push_cast
    ring

/-- Closed witness for C1 at a concrete artifact and category. -/
theorem claim_C1_overall_aggregation_witness :
    ("structure", scoreStructure artPlain).2.score ≤ ("structure", scoreStructure artPlain).2.max ∧
      ("structure", scoreStructure artPlain).2.percentage =
        100 * (("structure", scoreStructure artPlain).2.score : ℚ) /
          ("structure", scoreStructure artPlain).2.max :=
  (claim_C1_overall_aggregation artPlain).1 ("structure", scoreStructure artPlain)
    (by simp [calculateOverallScore])

/-- C2: the grade thresholds are inclusive lower bounds evaluated high to
low: percentages of at least 90 grade "A (Excellent)", of at least 80 and
below 90 grade "B (Good)", of at least 70 and below 80 grade "C (Fair)",
of at least 60 and below 70 grade "D (Needs Improvement)", and anything
below 60 grades "F (Poor)"; in particular the boundary values 90, 80, 70
and 60 map to the A, B, C and D grades respectively. -/
theorem claim_C2_grade_thresholds (p : ℚ) :
    (p ≥ 90 → getGrade p = "A (Excellent)") ∧
    (p ≥ 80 → p < 90 → getGrade p = "B (Good)") ∧
    (p ≥ 70 → p < 80 → getGrade p = "C (Fair)") ∧
    (p ≥ 60 → p < 70 → getGrade p = "D (Needs Improvement)") ∧
    (p < 60 → getGrade p = "F (Poor)") := by
  unfold getGrade
  refine ⟨?_, ?_, ?_, ?_, ?_⟩ <;> intros <;> split_ifs <;> first | rfl | linarith

/-- Closed witness for C2 at the four boundary percentages and one
failing percentage. -/
theorem claim_C2_grade_thresholds_witness :
    getGrade 90 = "A (Excellent)" ∧ getGrade 80 = "B (Good)" ∧ getGrade 70 = "C (Fair)" ∧
      getGrade 60 = "D (Needs Improvement)" ∧ getGrade 59 = "F (Poor)" :=
  ⟨(claim_C2_grade_thresholds 90).1 (by norm_num),
   (claim_C2_grade_thresholds 80).2.1 (by norm_num) (by norm_num),
   (claim_C2_grade_thresholds 70).2.2.1 (by norm_num) (by norm_num),
   (claim_C2_grade_thresholds 60).2.2.2.1 (by norm_num) (by norm_num),
   (claim_C2_grade_thresholds 59).2.2.2.2 (by norm_num)⟩

/-- C3: scoring is deterministic — two scoring passes over the same
artifact contents produce the same total score, grade and issue list (the
pipeline is a pure function of the loaded snapshot). -/
theorem claim_C3_determinism (a₁ a₂ : SkillArtifact) (h : a₁ = a₂) :
    (calculateOverallScore a₁).score = (calculateOverallScore a₂).score ∧
    (calculateOverallScore a₁).grade = (calculateOverallScore a₂).grade ∧
    (calculateOverallScore a₁).issues = (calculateOverallScore a₂).issues := by
  subst h
  exact ⟨rfl, rfl, rfl⟩

/-- Closed witness for C3 at a concrete artifact. -/
theorem claim_C3_determinism_witness :
    (calculateOverallScore artPlain).score = (calculateOverallScore artPlain).score ∧
    (calculateOverallScore artPlain).grade = (calculateOverallScore artPlain).grade ∧
    (calculateOverallScore artPlain).issues = (calculateOverallScore artPlain).issues :=
  claim_C3_determinism artPlain artPlain rfl

/-- C4: for every artifact and every category of the overall result, the
category's issue list is empty exactly when its score reaches its
maximum (every sub-check that fails to award full points records an
issue). -/
theorem claim_C4_issues_iff_full_score (a : SkillArtifact) :
    ∀ c ∈ (calculateOverallScore a).categories, (c.2.issues = [] ↔ c.2.score = c.2.max) := by
  intro c hc
  simp only [calculateOverallScore, List.mem_cons, List.mem_singleton, List.not_mem_nil,
    or_false] at hc
  rcases hc with rfl | rfl | rfl | rfl | rfl
  · exact scoreStructure_issues_iff a
  · exact scoreContent_issues_iff a
  · exact scoreEfficiency_issues_iff a
  · exact scoreSecurity_issues_iff a
  · exact scoreStyle_issues_iff a

/-- Closed witness for C4 at a concrete artifact and category. -/
theorem claim_C4_issues_iff_full_score_witness :
    ("security", scoreSecurity artPlain).2.issues = [] ↔
      ("security", scoreSecurity artPlain).2.score = ("security", scoreSecurity artPlain).2.max :=
  claim_C4_issues_iff_full_score artPlain ("security", scoreSecurity artPlain)
    (by simp [calculateOverallScore])

/-! ### Frontmatter characterization (C5) -/

theorem append_overlap {P s q r : List Char} (h : P ++ s = q ++ r)
    (hle : q.length ≤ P.length) : ∃ w, P = q ++ w := by
  have ht : P.take q.length = q := by
    have h1 : (P ++ s).take q.length = P.take q.length :=
      List.take_append_of_le_length hle
    have h2 : (q ++ r).take q.length = q := List.take_left q r
    rw [← h1, h, h2]
  refine ⟨P.drop q.length, ?_⟩
  conv_lhs => rw [← List.take_append_drop q.length P]
  rw [ht]

theorem hasValidYaml_iff (content : List Char) :
    hasValidYaml content = true ↔
      ∃ fm rest, content = fmOpen ++ fm ++ fmClose ++ rest ∧
        containsSub fmClose (fm ++ "\n---".data) = false ∧
        containsSub "name:".data fm = true ∧ containsSub "description:".data fm = true := by
  constructor
  · intro h
    unfold hasValidYaml at h
    by_cases hpre : isPre fmOpen content = true
    · rw [if_pos hpre] at h
      obtain ⟨t, ht⟩ := (isPre_iff_append fmOpen content).mp hpre
      have hdrop : content.drop 4 = t := by
        rw [ht]
        have h4 : (4 : Nat) = fmOpen.length := by decide
        rw [h4, List.drop_left]
      cases hs : splitFirst fmClose (content.drop 4) with
      | none => rw [hs] at h; cases h
      | some pr =>
        rw [hs] at h
        have hs' : splitFirst fmClose (content.drop 4) = some (pr.1, pr.2) := by rw [hs]
        have hsound : content.drop 4 = pr.1 ++ fmClose ++ pr.2 := splitFirst_sound hs'
        simp only [Bool.and_eq_true] at h
        refine ⟨pr.1, pr.2, ?_, ?_, h.1, h.2⟩
        · rw [ht, ← hdrop, hsound]
          simp [List.append_assoc]
        · by_cases hc : containsSub fmClose (pr.1 ++ "\n---".data) = true
          · exfalso
            obtain ⟨u, v, huv⟩ := (containsSub_iff _ _).mp hc
            have htu : content.drop 4 = u ++ fmClose ++ (v ++ '\n' :: pr.2) := by
              rw [hsound]
              calc pr.1 ++ fmClose ++ pr.2
                  = (pr.1 ++ "\n---".data) ++ ('\n' :: pr.2) := by
                    have hdec : fmClose = "\n---".data ++ ['\n'] := by decide
                    rw [hdec]
                    simp [List.append_assoc]
                _ = (u ++ fmClose ++ v) ++ ('\n' :: pr.2) := by rw [huv]
                _ = u ++ fmClose ++ (v ++ '\n' :: pr.2) := by simp [List.append_assoc]
            have hle := splitFirst_leftmost hs' u (v ++ '\n' :: pr.2) htu
            have h4 : ("\n---".data).length = 4 := by decide
            have h5 : fmClose.length = 5 := by decide
            have hlen : pr.1.length + 4 = u.length + (5 + v.length) := by
              have := congrArg List.length huv
              simpa [List.length_append, h4, h5] using this
            omega
          · exact Bool.eq_false_iff.mpr hc
    · rw [if_neg hpre] at h
      cases h
  · rintro ⟨fm, rest, heq, hno, hn, hd⟩
    have hpre : isPre fmOpen content = true :=
      (isPre_iff_append _ _).mpr ⟨fm ++ fmClose ++ rest, heq⟩
    have hdrop : content.drop 4 = fm ++ fmClose ++ rest := by
      rw [heq]
      have h4 : (4 : Nat) = fmOpen.length := by decide
      rw [h4, List.append_assoc, List.append_assoc, List.drop_left, ← List.append_assoc]
    obtain ⟨a', b', hs⟩ := splitFirst_complete fm rest hdrop
    have hsound : content.drop 4 = a' ++ fmClose ++ b' := splitFirst_sound hs
    have hle : a'.length ≤ fm.length := splitFirst_leftmost hs fm rest hdrop
    have haeq : a' = fm ∧ b' = rest := by
      by_cases hlt : a'.length < fm.length
      · exfalso
        have hfull : (fm ++ "\n---".data) ++ ('\n' :: rest) = (a' ++ fmClose) ++ b' := by
          have h1 : fm ++ fmClose ++ rest = a' ++ fmClose ++ b' := by rw [← hdrop, hsound]
          calc (fm ++ "\n---".data) ++ ('\n' :: rest)
              = fm ++ fmClose ++ rest := by
                have hdec : fmClose = "\n---".data ++ ['\n'] := by decide
                rw [hdec]
                simp [List.append_assoc]
            _ = (a' ++ fmClose) ++ b' := h1
        have h4 : ("\n---".data).length = 4 := by decide
        have h5 : fmClose.length = 5 := by decide
        have hlen2 : (a' ++ fmClose).length ≤ (fm ++ "\n---".data).length := by
          simp only [List.length_append, h4, h5]
          omega
        obtain ⟨w, hw⟩ := append_overlap hfull hlen2
        have hocc : containsSub fmClose (fm ++ "\n---".data) = true :=
          (containsSub_iff _ _).mpr ⟨a', w, by rw [hw]⟩
        rw [hno] at hocc
        cases hocc
      · have hlena : a'.length = fm.length := le_antisymm hle (not_lt.mp hlt)
        have hmain : a' ++ (fmClose ++ b') = fm ++ (fmClose ++ rest) := by
          have := hsound.symm.trans hdrop
          simpa [List.append_assoc] using this
        obtain ⟨h1, h2⟩ := List.append_inj hmain hlena
        obtain ⟨_, h3⟩ := List.append_inj h2 rfl
        exact ⟨h1, h3⟩
    obtain ⟨rfl, rfl⟩ := haeq
    unfold hasValidYaml
    rw [if_pos hpre, hs]
    simp [hn, hd]

/-- C5: the frontmatter sub-check awards its 5 points exactly when the
primary document starts with the `---` delimiter line, a matching closing
delimiter follows (the enclosed block being the text up to the first
closing delimiter), and the enclosed block contains both a `name:` key
and a `description:` key as substrings; as a consequence, a primary
document with no opening frontmatter delimiter scores at most 15 in the
structure category and records the "YAML frontmatter invalid or missing"
issue. -/
theorem claim_C5_frontmatter (a : SkillArtifact) :
    (hasValidYaml a.skillMd.data = true ↔
      ∃ fm rest, a.skillMd.data = fmOpen ++ fm ++ fmClose ++ rest ∧
        containsSub fmClose (fm ++ "\n---".data) = false ∧
        containsSub "name:".data fm = true ∧ containsSub "description:".data fm = true) ∧
    (isPre fmOpen a.skillMd.data = false →
      (scoreStructure a).score ≤ 15 ∧
        "YAML frontmatter invalid or missing" ∈ (scoreStructure a).issues) := by
  refine ⟨hasValidYaml_iff a.skillMd.data, ?_⟩
  intro h
  have hy : hasValidYaml a.skillMd.data = false := by
    unfold hasValidYaml
    rw [if_neg (by simp [h])]
  unfold scoreStructure
  dsimp only
  rw [hy]
  constructor
  · simp only [Bool.false_eq_true, if_false]
    split_ifs <;> norm_num
  · simp

/-- Closed witness for C5: a concrete artifact whose primary document has
no frontmatter delimiters. -/
theorem claim_C5_frontmatter_witness :
    (scoreStructure artPlain).score ≤ 15 ∧
      "YAML frontmatter invalid or missing" ∈ (scoreStructure artPlain).issues :=
  (claim_C5_frontmatter artPlain).2 (by decide)

/-! ### Secret-literal and dangerous-pattern claims (C6, C7) -/

/-- The concrete secret literal of the C6 scenario matches the
`password` pattern wherever it occurs, whatever follows it. -/
theorem passwordAt_concrete (r : List Char) :
    passwordAt ("password = \"abc123\"".data ++ r) = true := rfl

theorem searchPassword_of_split (cs l r : List Char)
    (h : cs = l ++ "password = \"abc123\"".data ++ r) :
    searchPassword cs = true := by
  have h2 : cs = l ++ ("password = \"abc123\"".data ++ r) := by
    rw [h, List.append_assoc]
  rw [h2]
  exact searchFrom_append _ l none _ (passwordAt_concrete r)

/-- C6: the secret-literal sub-check fails exactly when one of the five
case-insensitive secret patterns (quoted `api-key`/`password`/`secret`/
`token` assignments or a bearer token) matches in the primary document or
in one of the script/config files selected by extension; in particular
any primary document containing the literal text `password = "abc123"`
makes the sub-check fail, records the "Hardcoded secrets detected"
issue, and caps the security score at 10. -/
theorem claim_C6_secret_literals (a : SkillArtifact) :
    (hasHardcodedSecrets a = true ↔
      ∃ f ∈ secretScanFiles a,
        searchApiKey f.data = true ∨ searchPassword f.data = true ∨
        searchSecret f.data = true ∨ searchToken f.data = true ∨
        searchBearer f.data = true) ∧
    (∀ l r, a.skillMd.data = l ++ "password = \"abc123\"".data ++ r →
      hasHardcodedSecrets a = true ∧
      "Hardcoded secrets detected" ∈ (scoreSecurity a).issues ∧
      (scoreSecurity a).score ≤ 10) := by
  constructor
  · simp [hasHardcodedSecrets, secretFileMatch, List.any_eq_true, or_assoc]
  · intro l r h
    have hm : secretFileMatch a.skillMd.data = true := by
      unfold secretFileMatch
      rw [searchPassword_of_split a.skillMd.data l r h]
      simp
    have hsec : hasHardcodedSecrets a = true := by
      unfold hasHardcodedSecrets
      rw [List.any_eq_true]
      exact ⟨a.skillMd, List.mem_cons_self _ _, hm⟩
    refine ⟨hsec, ?_, ?_⟩
    · unfold scoreSecurity
      dsimp only
      rw [hsec]
      simp
    · unfold scoreSecurity
      dsimp only
      rw [hsec]
      simp only [if_true]
      split_ifs <;> norm_num

/-- A concrete artifact whose primary document hardcodes a password. -/
def artSecret : SkillArtifact :=
  { skillMd := "password = \"abc123\"", refStems := none,
    scriptFiles := [], otherTextFiles := [] }

/-- Closed witness for C6 at a concrete artifact. -/
theorem claim_C6_secret_literals_witness :
    hasHardcodedSecrets artSecret = true ∧
      "Hardcoded secrets detected" ∈ (scoreSecurity artSecret).issues ∧
      (scoreSecurity artSecret).score ≤ 10 :=
  (claim_C6_secret_literals artSecret).2 [] [] (by decide)

/-- A dynamic-evaluation call matches the `\beval\s*\(` pattern at any
position whose preceding character passes the word boundary. -/
theorem evalCallAt_concrete (prev : Option Char) (r : List Char)
    (h : wordBoundary prev = true) :
    evalCallAt prev ("eval(".data ++ r) = true := by
  have : evalCallAt prev ("eval(".data ++ r) = (wordBoundary prev && true) := rfl
  rw [this, h]
  rfl

theorem searchEvalCall_of_split (cs l r : List Char)
    (h : cs = l ++ "eval(".data ++ r)
    (hb : l = [] ∨ ∃ c, l.getLast? = some c ∧ isWordCh c = false) :
    searchEvalCall cs = true := by
  have h2 : cs = l ++ ("eval(".data ++ r) := by rw [h, List.append_assoc]
  rw [h2]
  apply searchFrom_append _ l none _
  apply evalCallAt_concrete
  rcases hb with rfl | ⟨c, hc, hw⟩
  · rfl
  · unfold lastPrev
    rw [hc]
    simp [wordBoundary, hw]

/-- C7: the dangerous-execution sub-check fails exactly when one of the
five dangerous patterns (word-bounded `eval(`/`exec(` calls,
`shell=True`, `os.system(`, or `subprocess.` followed by `shell=True` on
the same line) matches in some script file; in particular any script
containing a dynamic-evaluation call at a word boundary makes the
sub-check fail, records the "Dangerous code patterns detected" issue, and
caps the security score at 10, independently of the primary document. -/
theorem claim_C7_dangerous_patterns (a : SkillArtifact) :
    (hasDangerousPatterns a = true ↔
      ∃ s ∈ a.scriptFiles,
        searchEvalCall s.data = true ∨ searchExecCall s.data = true ∨
        searchShellTrue s.data = true ∨ searchOsSystem s.data = true ∨
        searchSubprocess s.data = true) ∧
    (∀ s ∈ a.scriptFiles, ∀ l r, s.data = l ++ "eval(".data ++ r →
      (l = [] ∨ ∃ c, l.getLast? = some c ∧ isWordCh c = false) →
      hasDangerousPatterns a = true ∧
      "Dangerous code patterns detected" ∈ (scoreSecurity a).issues ∧
      (scoreSecurity a).score ≤ 10) := by
  constructor
  · simp [hasDangerousPatterns, dangerFileMatch, List.any_eq_true, or_assoc]
  · intro s hs l r h hb
    have hm : dangerFileMatch s.data = true := by
      unfold dangerFileMatch
      rw [searchEvalCall_of_split s.data l r h hb]
      simp
    have hdan : hasDangerousPatterns a = true := by
      unfold hasDangerousPatterns
      rw [List.any_eq_true]
      exact ⟨s, hs, hm⟩
    refine ⟨hdan, ?_, ?_⟩
    · unfold scoreSecurity
      dsimp only
      rw [hdan]
      simp
    · unfold scoreSecurity
      dsimp only
      rw [hdan]
      simp only [if_true]
      split_ifs <;> norm_num

/-- A concrete artifact with a script file using `eval`. -/
def artDanger : SkillArtifact :=
  { skillMd := "A plain document", refStems := none,
    scriptFiles := ["eval(input())"], otherTextFiles := [] }

/-- Closed witness for C7 at a concrete artifact. -/
theorem claim_C7_dangerous_patterns_witness :
    hasDangerousPatterns artDanger = true ∧
      "Dangerous code patterns detected" ∈ (scoreSecurity artDanger).issues ∧
      (scoreSecurity artDanger).score ≤ 10 :=
  (claim_C7_dangerous_patterns artDanger).2 "eval(input())" (by decide)
    [] "input())".data (by decide) (Or.inl rfl)

/-! ### Reference organization (C8) -/

theorem stemOk_iff (s : String) :
    stemOk s = true ↔
      (∀ c ∈ s.data, c.isAlphanum = true ∨ c = '-' ∨ c = '_') ∧
      (∃ c ∈ s.data, c.isAlphanum = true) ∧ ' ' ∉ s.data := by
  unfold stemOk pyIsAlnum
  constructor
  · intro h
    simp only [Bool.and_eq_true, Bool.not_eq_true'] at h
    obtain ⟨⟨hne, hall⟩, hsp⟩ := h
    rw [List.all_eq_true] at hall
    refine ⟨?_, ?_, ?_⟩
    · intro c hc
      by_cases h1 : c = '-'
      · exact Or.inr (Or.inl h1)
      by_cases h2 : c = '_'
      · exact Or.inr (Or.inr h2)
      exact Or.inl (hall c (List.mem_filter.mpr ⟨hc, by simp [h1, h2]⟩))
    · have hne' : s.data.filter (fun c => c ≠ '-' && c ≠ '_') ≠ [] := by
        intro hemp
        rw [hemp] at hne
        simp at hne
      obtain ⟨c, hc⟩ := List.exists_mem_of_ne_nil _ hne'
      exact ⟨c, (List.mem_filter.mp hc).1, hall c hc⟩
    · intro hsp'
      simp [hsp'] at hsp
  · rintro ⟨hall, ⟨c0, hc0, halnum⟩, hnsp⟩
    simp only [Bool.and_eq_true, Bool.not_eq_true']
    refine ⟨⟨?_, ?_⟩, by simp [hnsp]⟩
    · have hmem : c0 ∈ s.data.filter (fun c => c ≠ '-' && c ≠ '_') := by
        refine List.mem_filter.mpr ⟨hc0, ?_⟩
        have h1 : c0 ≠ '-' := by rintro rfl; exact absurd halnum (by decide)
        have h2 : c0 ≠ '_' := by rintro rfl; exact absurd halnum (by decide)
        simp [h1, h2]
      cases hf : s.data.filter (fun c => c ≠ '-' && c ≠ '_') with
      | nil => rw [hf] at hmem; cases hmem
      | cons x xs => simp
    · rw [List.all_eq_true]
      intro c hc
      have hcf := List.mem_filter.mp hc
      rcases hall c hcf.1 with h | h | h
      · exact h
      · exfalso; revert hcf; simp [h]
      · exfalso; revert hcf; simp [h]

/-- A concrete artifact with a references directory holding `_.md`. -/
def artUnderscoreRef : SkillArtifact :=
  { skillMd := "A plain document", refStems := some ["_"],
    scriptFiles := [], otherTextFiles := [] }

/-- Counterexample refuting C8 as stated: the reference stem `_` consists
only of underscores (hence only of alphanumerics, hyphens or underscores,
with no space), yet the reference-organization check rejects it, because
Python's `isalnum()` is false on the string left after removing hyphens
and underscores when no alphanumeric character remains. -/
theorem claim_C8_counterexample :
    ((∀ c ∈ ("_" : String).data, c.isAlphanum = true ∨ c = '-' ∨ c = '_') ∧
      ' ' ∉ ("_" : String).data) ∧
    referencesOrganized artUnderscoreRef = false := by
  refine ⟨⟨?_, ?_⟩, ?_⟩ <;> decide

/-- C8 (amended): with a references directory present, the check passes
exactly when every reference stem consists only of alphanumerics, hyphens
or underscores, contains at least one alphanumeric character, and
contains no space; without a references directory it passes
automatically. -/
theorem claim_C8_reference_organization (a : SkillArtifact) :
    referencesOrganized a = true ↔
      (a.refStems = none ∨
        ∃ stems, a.refStems = some stems ∧ ∀ s ∈ stems,
          (∀ c ∈ s.data, c.isAlphanum = true ∨ c = '-' ∨ c = '_') ∧
          (∃ c ∈ s.data, c.isAlphanum = true) ∧ ' ' ∉ s.data) := by
  unfold referencesOrganized
  cases hr : a.refStems with
  | none => simp
  | some stems =>
    simp only [List.all_eq_true, Option.some.injEq, reduceCtorEq, false_or]
    constructor
    · intro h
      exact ⟨stems, rfl, fun s hs => (stemOk_iff s).mp (h s hs)⟩
    · rintro ⟨stems', hEq, h⟩
      cases hEq
      exact fun s hs => (stemOk_iff s).mpr (h s hs)

/-- Closed witness for C8 (amended) at a concrete compliant artifact. -/
theorem claim_C8_reference_organization_witness :
    referencesOrganized
      { skillMd := "A plain document", refStems := some ["api-ref_2"],
        scriptFiles := [], otherTextFiles := [] } = true :=
  (claim_C8_reference_organization _).mpr
    (Or.inr ⟨["api-ref_2"], rfl, by decide⟩)

/-! ### Quoted-value requirement of the secret scan (C10) -/

theorem lastPrev_cons (prev : Option Char) (x : Char) (xs : List Char) :
    lastPrev prev (x :: xs) = lastPrev (some x) xs := by
  unfold lastPrev
  cases xs with
  | nil => simp [List.getLast?_singleton]
  | cons y ys =>
    rw [List.getLast?_cons_cons]
    cases h2 : (y :: ys).getLast? with
    | none =>
      have hs : (y :: ys).getLast?.isSome = true := List.getLast?_isSome.mpr (by simp)
      rw [h2] at hs
      cases hs
    | some c => rfl

theorem searchFrom_exists (p : Option Char → List Char → Bool) :
    ∀ (cs : List Char) (prev : Option Char), searchFrom p prev cs = true →
      ∃ l m, cs = l ++ m ∧ p (lastPrev prev l) m = true := by
  intro cs
  induction cs with
  | nil =>
    intro prev h
    exact ⟨[], [], rfl, h⟩
  | cons c cs ih =>
    intro prev h
    simp only [searchFrom, Bool.or_eq_true] at h
    rcases h with h | h
    · exact ⟨[], c :: cs, rfl, h⟩
    · obtain ⟨l, m, heq, hp⟩ := ih (some c) h
      exact ⟨c :: l, m, by rw [heq]; rfl, by rw [lastPrev_cons]; exact hp⟩

theorem mem_of_mem_dropWhile {p : Char → Bool} {l : List Char} {x : Char}
    (h : x ∈ l.dropWhile p) : x ∈ l :=
  (List.dropWhile_sublist _).subset h

theorem quotedLit_quote {cs : List Char} (h : quotedLit cs = true) :
    ∃ d ∈ cs, isQuoteCh d = true := by
  cases cs with
  | nil => cases h
  | cons c cs' =>
    unfold quotedLit at h
    simp only [Bool.and_eq_true] at h
    exact ⟨c, List.mem_cons_self _ _, h.1⟩

theorem assignQuoted_quote {r : List Char} (h : assignQuoted r = true) :
    ∃ d ∈ r, isQuoteCh d = true := by
  unfold assignQuoted at h
  cases hd : dropWs r with
  | nil => rw [hd] at h; cases h
  | cons e r2 =>
    rw [hd] at h
    simp only [Bool.and_eq_true] at h
    obtain ⟨d, hdm, hq⟩ := quotedLit_quote h.2
    have h1 : d ∈ e :: r2 := List.mem_cons_of_mem e (mem_of_mem_dropWhile hdm)
    rw [← hd] at h1
    exact ⟨d, mem_of_mem_dropWhile h1, hq⟩

theorem dropCI_subset : ∀ (pat : List Char) {cs r : List Char},
    dropCI pat cs = some r → ∀ x ∈ r, x ∈ cs := by
  intro pat
  induction pat with
  | nil =>
    intro cs r h x hx
    unfold dropCI at h
    injection h with h'
    subst h'
    exact hx
  | cons p ps ih =>
    intro cs r h x hx
    cases cs with
    | nil => unfold dropCI at h; cases h
    | cons c cs' =>
      unfold dropCI at h
      by_cases hpc : p.toLower = c.toLower
      · rw [if_pos hpc] at h
        exact List.mem_cons_of_mem c (ih h x hx)
      · rw [if_neg hpc] at h; cases h

theorem ciAssign_quote {pat m : List Char}
    (h : (match dropCI pat m with
          | some r => assignQuoted r
          | none => false) = true) :
    ∃ d ∈ m, isQuoteCh d = true := by
  cases hdc : dropCI pat m with
  | none => rw [hdc] at h; cases h
  | some r =>
    rw [hdc] at h
    obtain ⟨d, hdm, hq⟩ := assignQuoted_quote h
    exact ⟨d, dropCI_subset pat hdc d hdm, hq⟩

theorem passwordAt_quote {m : List Char} (h : passwordAt m = true) :
    ∃ d ∈ m, isQuoteCh d = true := by
  unfold passwordAt at h
  exact ciAssign_quote h

theorem secretAt_quote {m : List Char} (h : secretAt m = true) :
    ∃ d ∈ m, isQuoteCh d = true := by
  unfold secretAt at h
  exact ciAssign_quote h

theorem tokenAt_quote {m : List Char} (h : tokenAt m = true) :
    ∃ d ∈ m, isQuoteCh d = true := by
  unfold tokenAt at h
  exact ciAssign_quote h

theorem apiKeyAt_quote {m : List Char} (h : apiKeyAt m = true) :
    ∃ d ∈ m, isQuoteCh d = true := by
  unfold apiKeyAt at h
  cases hdc : dropCI "api".data m with
  | none => rw [hdc] at h; cases h
  | some r =>
    rw [hdc] at h
    cases r with
    | nil => cases h
    | cons c r' =>
      dsimp only at h
      by_cases hsep : (c = '_' || c = '-') = true
      · rw [if_pos hsep] at h
        obtain ⟨d, hdm, hq⟩ := ciAssign_quote h
        have : d ∈ c :: r' := List.mem_cons_of_mem c hdm
        exact ⟨d, dropCI_subset "api".data hdc d this, hq⟩
      · rw [if_neg hsep] at h
        obtain ⟨d, hdm, hq⟩ := ciAssign_quote h
        exact ⟨d, dropCI_subset "api".data hdc d hdm, hq⟩

theorem dropCI_toLower : ∀ (pat : List Char) {cs r : List Char},
    dropCI pat cs = some r →
      cs.map Char.toLower = pat.map Char.toLower ++ r.map Char.toLower := by
  intro pat
  induction pat with
  | nil =>
    intro cs r h
    unfold dropCI at h
    injection h with h'
    subst h'
    rfl
  | cons p ps ih =>
    intro cs r h
    cases cs with
    | nil => unfold dropCI at h; cases h
    | cons c cs' =>
      unfold dropCI at h
      by_cases hpc : p.toLower = c.toLower
      · rw [if_pos hpc] at h
        have := ih h
        simp only [List.map_cons, List.cons_append, this, hpc]
      · rw [if_neg hpc] at h; cases h

theorem bearerAt_substring {m : List Char} (h : bearerAt m = true) :
    ∃ u v, m.map Char.toLower = u ++ "bearer".data ++ v := by
  unfold bearerAt at h
  cases hdc : dropCI "bearer".data m with
  | none => rw [hdc] at h; cases h
  | some r =>
    have hmap := dropCI_toLower "bearer".data hdc
    have hlow : ("bearer".data).map Char.toLower = "bearer".data := by decide
    exact ⟨[], r.map Char.toLower, by rw [hmap, hlow]; rfl⟩

theorem secretFileMatch_cases {cs : List Char} (h : secretFileMatch cs = true) :
    cs.any isQuoteCh = true ∨ containsSub "bearer".data (cs.map Char.toLower) = true := by
  unfold secretFileMatch at h
  simp only [Bool.or_eq_true] at h
  have quoteSide : ∀ {d : Char}, d ∈ cs → isQuoteCh d = true → cs.any isQuoteCh = true := by
    intro d hm hq
    rw [List.any_eq_true]
    exact ⟨d, hm, hq⟩
  rcases h with ((((h | h) | h) | h) | h)
  · obtain ⟨l, m, heq, hp⟩ := searchFrom_exists _ cs none h
    obtain ⟨d, hdm, hq⟩ := apiKeyAt_quote hp
    exact Or.inl (quoteSide (heq ▸ List.mem_append_right l hdm) hq)
  · obtain ⟨l, m, heq, hp⟩ := searchFrom_exists _ cs none h
    obtain ⟨d, hdm, hq⟩ := passwordAt_quote hp
    exact Or.inl (quoteSide (heq ▸ List.mem_append_right l hdm) hq)
  · obtain ⟨l, m, heq, hp⟩ := searchFrom_exists _ cs none h
    obtain ⟨d, hdm, hq⟩ := secretAt_quote hp
    exact Or.inl (quoteSide (heq ▸ List.mem_append_right l hdm) hq)
  · obtain ⟨l, m, heq, hp⟩ := searchFrom_exists _ cs none h
    obtain ⟨d, hdm, hq⟩ := tokenAt_quote hp
    exact Or.inl (quoteSide (heq ▸ List.mem_append_right l hdm) hq)
  · obtain ⟨l, m, heq, hp⟩ := searchFrom_exists _ cs none h
    obtain ⟨u, v, huv⟩ := bearerAt_substring hp
    refine Or.inr ((containsSub_iff _ _).mpr ⟨l.map Char.toLower ++ u, v, ?_⟩)
    rw [heq, List.map_append, huv]
    simp [List.append_assoc]

/-- C10: the secret scan only flags assignments whose right-hand side is
a quoted string literal (or bearer tokens): an artifact none of whose
scanned files contains a quote character or the word `bearer`
(case-insensitively) — for instance one whose document hardcodes the
unquoted assignment `password=abc123` — keeps the full 5 points of the
secret-literal sub-check. -/
theorem claim_C10_unquoted_not_flagged (a : SkillArtifact)
    (h : ∀ f ∈ secretScanFiles a,
      f.data.any isQuoteCh = false ∧
      containsSub "bearer".data (f.data.map Char.toLower) = false) :
    hasHardcodedSecrets a = false ∧
    "Hardcoded secrets detected" ∉ (scoreSecurity a).issues ∧
    5 ≤ (scoreSecurity a).score := by
  have hsec : hasHardcodedSecrets a = false := by
    unfold hasHardcodedSecrets
    rw [Bool.eq_false_iff]
    intro hc
    rw [List.any_eq_true] at hc
    obtain ⟨f, hf, hm⟩ := hc
    rcases secretFileMatch_cases hm with hq | hb
    · rw [(h f hf).1] at hq; cases hq
    · rw [(h f hf).2] at hb; cases hb
  refine ⟨hsec, ?_, ?_⟩
  · unfold scoreSecurity
    dsimp only
    rw [hsec]
    simp only [Bool.false_eq_true, if_false]
    split_ifs <;> simp
  · unfold scoreSecurity
    dsimp only
    rw [hsec]
    simp only [Bool.false_eq_true, if_false]
    split_ifs <;> norm_num

/-- A concrete artifact with an unquoted `password=` assignment. -/
def artUnquoted : SkillArtifact :=
  { skillMd := "password=abc123", refStems := none,
    scriptFiles := [], otherTextFiles := [] }

/-- Closed witness for C10 at a concrete artifact. -/
theorem claim_C10_unquoted_not_flagged_witness :
    hasHardcodedSecrets artUnquoted = false ∧
      "Hardcoded secrets detected" ∉ (scoreSecurity artUnquoted).issues ∧
      5 ≤ (scoreSecurity artUnquoted).score :=
  claim_C10_unquoted_not_flagged artUnquoted (by decide)

/-! ### Imperative ratio (C9) -/

/-- C9: the imperative-ratio sub-score of the style category is driven by
the ratio of imperative sentence units to all sentence units (0 when no
sentence survives segmentation): a ratio above 0.5 earns the full 5
points, a ratio above 0.3 (but not above 0.5) earns 3 points with an
issue, and anything else earns 0 points with an issue; the sentence units
are obtained by stripping frontmatter and fenced code blocks, splitting
on sentence punctuation followed by a newline and discarding stripped
fragments of at most 10 characters, and a sentence counts as imperative
when, after markdown cleanup, one of its first three words starts with a
fixed imperative verb. -/
theorem claim_C9_imperative_ratio (a : SkillArtifact) :
    countImperativeSentences a.skillMd.data =
      (if (sentenceUnits a.skillMd.data).isEmpty then 0
       else (((sentenceUnits a.skillMd.data).countP sentenceIsImperative : ℕ) : ℚ) /
         ((sentenceUnits a.skillMd.data).length : ℚ)) ∧
    (scoreStyle a).score =
      (imperativePart (countImperativeSentences a.skillMd.data)).1 +
        (sentenceLengthPart (calcAvgSentenceLength a.skillMd.data)).1 +
        (if hasClearHeaders a.skillMd.data then 5 else 0) ∧
    (countImperativeSentences a.skillMd.data > 1/2 →
      imperativePart (countImperativeSentences a.skillMd.data) = (5, [])) ∧
    (countImperativeSentences a.skillMd.data ≤ 1/2 →
      countImperativeSentences a.skillMd.data > 3/10 →
      imperativePart (countImperativeSentences a.skillMd.data) =
        (3, ["More imperative voice recommended"])) ∧
    (countImperativeSentences a.skillMd.data ≤ 3/10 →
      imperativePart (countImperativeSentences a.skillMd.data) =
        (0, ["Not using imperative voice"])) := by
  refine ⟨rfl, rfl, ?_, ?_, ?_⟩
  · intro h
    unfold imperativePart
    rw [if_pos h]
  · intro h1 h2
    unfold imperativePart
    rw [if_neg (by exact not_lt.mpr h1), if_pos h2]
  · intro h
    unfold imperativePart
    have h1 : ¬ countImperativeSentences a.skillMd.data > 1/2 := by
      intro hc
      have : (3:ℚ)/10 < 1/2 := by norm_num
      linarith
    have h2 : ¬ countImperativeSentences a.skillMd.data > 3/10 := not_lt.mpr h
    rw [if_neg h1, if_neg h2]

/-- Closed witness for C9 at a concrete artifact (empty document: the
ratio is 0, earning 0 points and the issue). -/
theorem claim_C9_imperative_ratio_witness :
    imperativePart (countImperativeSentences ("" : String).data) =
      (0, ["Not using imperative voice"]) :=
  (claim_C9_imperative_ratio
    { skillMd := "", refStems := none, scriptFiles := [], otherTextFiles := [] }).2.2.2.2
    (by norm_num [show countImperativeSentences ("" : String).data = 0 from rfl])
